import Mathlib

/-!
Shallow embedding of the gameplay/leaderboard logic of `src/main.py`
(asteroidsboot). Wall-clock instants are modelled as the integer
millisecond counter returned by the clock (`pygame.time.get_ticks`);
the source divides differences of that counter by 1000.0 and compares
against the constants 5.0 and 300, which is equivalent to comparing
the millisecond difference against 5000 and 300000. Reported times
(seconds, floats in the source) are modelled as rationals. Python
integers are modelled as `Int`, stable `list.sort(key=...)` as
`List.mergeSort` with the lexicographic order on the key tuple, and
code paths that raise an exception as `none` / `Except.error`.
-/

namespace Asteroids

/-- A leaderboard entry: the dict built in `add_score` (`src/main.py:55-62`).
`shots_remaining` is present (`some`) exactly when the mode is
one-in-chamber; `none` models a missing key / Python `None`. -/
structure Entry where
  score : Int
  time : Rat
  date : String
  shots_remaining : Option Int
deriving DecidableEq

/-- The four leaderboard slots appearing in `src/main.py` (the three
selectable modes plus the `master_of_evasion` pseudo-mode). -/
inductive Mode
  | original
  | time_attack
  | one_in_chamber
  | master_of_evasion
deriving DecidableEq

/-- The persisted high-score structure: one list per mode key. -/
structure Store where
  original : List Entry
  time_attack : List Entry
  one_in_chamber : List Entry
  master_of_evasion : List Entry
deriving DecidableEq

def emptyStore : Store := ⟨[], [], [], []⟩

def Store.get (s : Store) : Mode → List Entry
  | Mode.original => s.original
  | Mode.time_attack => s.time_attack
  | Mode.one_in_chamber => s.one_in_chamber
  | Mode.master_of_evasion => s.master_of_evasion

def Store.set (s : Store) : Mode → List Entry → Store
  | Mode.original, l => { s with original := l }
  | Mode.time_attack, l => { s with time_attack := l }
  | Mode.one_in_chamber, l => { s with one_in_chamber := l }
  | Mode.master_of_evasion, l => { s with master_of_evasion := l }

/-- The sort key used by `high_scores[mode].sort(key=...)`
(`src/main.py:67-78`), padded to a uniform triple; a missing
`shots_remaining` is read as 0 here, but `add_score` refuses (models the
Python `TypeError` from `-None`) before this default can matter. -/
def sortKey : Mode → Entry → Rat × Rat × Rat
  | Mode.original, e => (-(e.score : Rat), e.time, 0)
  | Mode.time_attack, e => (-(e.score : Rat), -e.time, 0)
  | Mode.one_in_chamber, e =>
      (-(e.score : Rat), -((e.shots_remaining.getD 0 : Int) : Rat), e.time)
  | Mode.master_of_evasion, e => (-e.time, 0, 0)

/-- Lexicographic comparison of key triples: Python compares key tuples
lexicographically when sorting. -/
def lexLe (x y : Rat × Rat × Rat) : Bool :=
  decide (x.1 < y.1 ∨ (x.1 = y.1 ∧
    (x.2.1 < y.2.1 ∨ (x.2.1 = y.2.1 ∧ x.2.2 ≤ y.2.2))))

def keyLe (m : Mode) (a b : Entry) : Bool :=
  lexLe (sortKey m a) (sortKey m b)

/-- The entry appended by `add_score`: the `shots_remaining` key is only
added for one-in-chamber (`src/main.py:61-62`). -/
def mkEntry (mode : Mode) (score : Int) (time_elapsed : Rat)
    (shots_remaining : Option Int) (date : String) : Entry :=
  ⟨score, time_elapsed, date,
    if mode = Mode.one_in_chamber then shots_remaining else none⟩

/-- The sort key for one-in-chamber evaluates `-x["shots_remaining"]` on
every list element; in Python this raises `TypeError` when the value is
`None`. This predicate is the success condition of that key computation. -/
def oicShotsOk (l : List Entry) : Bool :=
  l.all fun e => e.shots_remaining.isSome

/-- Match used by the rank-finding loop of `add_score`
(`src/main.py:85-89`): exact equality on score, time and date. -/
def entryMatches (score : Int) (time_elapsed : Rat) (date : String)
    (e : Entry) : Bool :=
  decide (e.score = score ∧ e.time = time_elapsed ∧ e.date = date)

/-- `add_score` (`src/main.py:51-91`) acting on an in-memory store:
append the new entry, stably sort by the mode key, keep the top 5,
then return the 1-based index of the first entry matching the new
(score, time, date), if any. `none` models the uncaught `TypeError`
raised while sorting a one-in-chamber list containing a `None`
`shots_remaining`. `date` stands for `datetime.now()` formatted. -/
def add_score (mode : Mode) (score : Int) (time_elapsed : Rat)
    (shots_remaining : Option Int) (date : String) (store : Store) :
    Option (Store × Option Nat) :=
  let new_entry := mkEntry mode score time_elapsed shots_remaining date
  let l := store.get mode ++ [new_entry]
  if mode = Mode.one_in_chamber ∧ oicShotsOk l = false then
    none
  else
    let kept := (l.mergeSort (keyLe mode)).take 5
    let store' := store.set mode kept
    let rank := (kept.findIdx? (entryMatches score time_elapsed date)).map (· + 1)
    some (store', rank)

/-- Shapes the leaderboard file can present to `load_high_scores`
(`src/main.py:16-44`): unparsable/unreadable content, the legacy flat
list, or the per-mode dict whose keys may each be absent. -/
inductive FileContent
  | malformed
  | flat (l : List Entry)
  | dict (original time_attack one_in_chamber master_of_evasion :
      Option (List Entry))

/-- `load_high_scores` (`src/main.py:16-44`). `none` input = file absent.
Result: `Except.error ()` models the uncaught `json.JSONDecodeError` /
read error escaping the function; on success the second component is the
structure written back to disk during legacy migration (`none` if the
load performed no write). -/
def load_high_scores : Option FileContent → Except Unit (Store × Option Store)
  | none => Except.ok (emptyStore, none)
  | some FileContent.malformed => Except.error ()
  | some (FileContent.flat l) =>
      let s : Store := ⟨l, [], [], []⟩
      Except.ok (s, some s)
  | some (FileContent.dict o t c m) =>
      Except.ok (⟨o.getD [], t.getD [], c.getD [], m.getD []⟩, none)

/-- The persistence path of `add_score`: load from the file, compute, then
`save_high_scores` (`src/main.py:46-49,82`). A failing write (`saveOk =
false`) raises out of `add_score` — `with open(..., 'w')` has no handler —
so no rank is ever returned. -/
def add_score_persist (saveOk : Bool) (mode : Mode) (score : Int)
    (time_elapsed : Rat) (shots_remaining : Option Int) (date : String)
    (file : Option FileContent) : Except Unit (Store × Option Nat) :=
  match load_high_scores file with
  | Except.error e => Except.error e
  | Except.ok (s, _) =>
    match add_score mode score time_elapsed shots_remaining date s with
    | none => Except.error ()
    | some (s', r) => if saveOk then Except.ok (s', r) else Except.error ()

/-! Per-tick game-loop state and transitions from `main`
(`src/main.py:203-383`). Clock instants are in milliseconds. -/

/-- The evasion-related session state of `main`: `evasion_mode_activated`,
`evasion_start_time` and `zero_shots_zero_score_time`
(`src/main.py:226-228`, all initially false/None). -/
structure EvState where
  activated : Bool
  start : Option Nat
  zeroTime : Option Nat
deriving DecidableEq

def EvState.init : EvState := ⟨false, none, none⟩

/-- The evasion-trigger block of the main loop (`src/main.py:279-295`),
run once per tick: only in one-in-chamber and only while not yet
activated; when ammunition and score are both zero it starts or checks
the continuous-zero timer (activating at a difference of ≥ 5000 ms and
recording the activation instant), otherwise it clears the timer. -/
def evasionCheck (mode : Mode) (now : Nat) (shotsRem score : Int)
    (s : EvState) : EvState :=
  if mode = Mode.one_in_chamber ∧ s.activated = false then
    if shotsRem = 0 ∧ score = 0 then
      match s.zeroTime with
      | none => { s with zeroTime := some now }
      | some t0 =>
          if 5000 ≤ now - t0 then
            { s with activated := true, start := some now }
          else s
    else { s with zeroTime := none }
  else s

/-- Milliseconds-to-seconds conversion applied by the source before
reporting times (`/ 1000.0`). -/
def msToSec (n : Nat) : Rat := (n : Rat) / 1000

/-- The arguments of a `display_game_over` call (`src/main.py:151`):
mode slot, score, elapsed seconds, optional shots remaining, and the
`master_of_evasion` keyword flag. -/
structure EndReport where
  mode : Mode
  score : Int
  time : Rat
  shots : Option Int
  master_flag : Bool
deriving DecidableEq

/-- The session-ending checks of one tick, in source order
(`src/main.py:298-326`): evasion 300 s timeout, then the time-attack
time limit, then player-asteroid collision. `now` and `start_ms` are the
clock instant of this tick and of session start; `playerHit` abstracts
`player.collides_with(asteroid)` holding for some live asteroid. Returns
the `display_game_over` call made this tick, if any. -/
def sessionEndCheck (mode : Mode) (now start_ms : Nat) (score : Int)
    (shotsRem : Option Int) (playerHit : Bool) (s : EvState) :
    Option EndReport :=
  let elapsed_ms := now - start_ms
  let evasion_ms := if s.activated then now - s.start.getD 0 else 0
  if s.activated = true ∧ 300000 ≤ evasion_ms then
    some ⟨Mode.master_of_evasion, 0, msToSec evasion_ms, none, false⟩
  else if mode = Mode.time_attack ∧ 300000 ≤ elapsed_ms then
    some ⟨Mode.time_attack, score, msToSec elapsed_ms, none, decide (score = 0)⟩
  else if playerHit then
    if s.activated then
      some ⟨Mode.master_of_evasion, 0, msToSec evasion_ms, none, false⟩
    else if mode = Mode.one_in_chamber then
      some ⟨Mode.one_in_chamber, score, msToSec elapsed_ms, shotsRem, false⟩
    else
      some ⟨mode, score, msToSec elapsed_ms, none, false⟩
  else none

/-- One-in-chamber fire handling (`src/main.py:258-263`): a shot is
created and ammunition decremented only when space is pressed, the
player may shoot, and `shots_remaining > 0`. Returns the new ammunition
and whether a shot was created. -/
def fireStep (spacePressed canShoot : Bool) (shotsRem : Int) : Int × Bool :=
  if spacePressed = true ∧ canShoot = true ∧ 0 < shotsRem then
    (shotsRem - 1, true)
  else (shotsRem, false)

/-- An asteroid as seen by the shot-collision pass: an identity and its
radius (`baseUnit` = `ASTEROID_MIN_RADIUS`). -/
structure Ast where
  id : Nat
  radius : Rat
deriving DecidableEq

/-- Points awarded for a destroyed asteroid by radius tier
(`src/main.py:333-342`): `radius >= 3*base` → 100, else
`radius >= 2*base` → 200, else 300. -/
def tierPoints (base radius : Rat) : Int :=
  if 3 * base ≤ radius then 100
  else if 2 * base ≤ radius then 200
  else 300

/-- One-in-chamber ammunition replenished per destroyed asteroid by the
same tier test (`src/main.py:335-344`): +1 / +2 / +3. -/
def tierAmmo (base radius : Rat) : Int :=
  if 3 * base ≤ radius then 1
  else if 2 * base ≤ radius then 2
  else 3

/-- The shot-asteroid collision pass (`src/main.py:329-349`): for each
asteroid in order, the first shot colliding with it (per the abstract
test `c`) is consumed (`shot.kill()`), points are added by tier, and in
one-in-chamber ammunition is replenished by tier; the `break` stops
further shots against that asteroid. Returns (score, ammunition,
surviving shots). -/
def shotPass (mode : Mode) (base : Rat) (c : Ast → Nat → Bool) :
    List Ast → List Nat → Int → Int → Int × Int × List Nat
  | [], shots, score, rem => (score, rem, shots)
  | a :: rest, shots, score, rem =>
    match shots.find? (c a) with
    | none => shotPass mode base c rest shots score rem
    | some _ =>
        shotPass mode base c rest (shots.eraseP (c a))
          (score + tierPoints base a.radius)
          (rem + (if mode = Mode.one_in_chamber then tierAmmo base a.radius else 0))

/-- Iterating the evasion-trigger block over a sequence of ticks, each
given as (clock instant, shots_remaining, score). -/
def evasionRun (mode : Mode) (s : EvState) : List (Nat × Int × Int) → EvState
  | [] => s
  | (now, sr, sc) :: rest => evasionRun mode (evasionCheck mode now sr sc s) rest

/-- A concrete one-in-chamber store: four score-100 entries and one
zero-score entry whose (score, time, date) will coincide with a later
insertion. -/
def dupStore : Store :=
  ⟨[], [],
    [⟨100, 1, "a", some 9⟩, ⟨100, 2, "a", some 9⟩, ⟨100, 3, "a", some 9⟩,
     ⟨100, 4, "a", some 9⟩, ⟨0, 10, "d", some 5⟩], []⟩

/-! Helper lemmas. -/

theorem lexLe_total (x y : Rat × Rat × Rat) : lexLe x y || lexLe y x := by
  simp only [lexLe, Bool.or_eq_true, decide_eq_true_eq]
  rcases lt_trichotomy x.1 y.1 with h | h | h
  · exact Or.inl (Or.inl h)
  · rcases lt_trichotomy x.2.1 y.2.1 with h2 | h2 | h2
    · exact Or.inl (Or.inr ⟨h, Or.inl h2⟩)
    · rcases le_total x.2.2 y.2.2 with h3 | h3
      · exact Or.inl (Or.inr ⟨h, Or.inr ⟨h2, h3⟩⟩)
      · exact Or.inr (Or.inr ⟨h.symm, Or.inr ⟨h2.symm, h3⟩⟩)
    · exact Or.inr (Or.inr ⟨h.symm, Or.inl h2⟩)
  · exact Or.inr (Or.inl h)

theorem lexLe_trans (x y z : Rat × Rat × Rat) (h1 : lexLe x y) (h2 : lexLe y z) :
    lexLe x z := by
  simp only [lexLe, decide_eq_true_eq] at h1 h2 ⊢
  rcases h1 with h1 | ⟨e1, h1⟩
  · rcases h2 with h2 | ⟨e2, h2⟩
    · exact Or.inl (h1.trans h2)
    · exact Or.inl (lt_of_lt_of_eq h1 e2)
  · rcases h2 with h2 | ⟨e2, h2⟩
    · exact Or.inl (lt_of_eq_of_lt e1 h2)
    · refine Or.inr ⟨e1.trans e2, ?_⟩
      rcases h1 with h1 | ⟨f1, h1⟩
      · rcases h2 with h2 | ⟨f2, h2⟩
        · exact Or.inl (h1.trans h2)
        · exact Or.inl (lt_of_lt_of_eq h1 f2)
      · rcases h2 with h2 | ⟨f2, h2⟩
        · exact Or.inl (lt_of_eq_of_lt f1 h2)
        · exact Or.inr ⟨f1.trans f2, h1.trans h2⟩

theorem keyLe_total (m : Mode) (a b : Entry) : keyLe m a b || keyLe m b a :=
  lexLe_total (sortKey m a) (sortKey m b)

theorem keyLe_trans (m : Mode) (a b c : Entry) (h1 : keyLe m a b)
    (h2 : keyLe m b c) : keyLe m a c :=
  lexLe_trans (sortKey m a) (sortKey m b) (sortKey m c) h1 h2

theorem Store.get_set_self (s : Store) (m : Mode) (l : List Entry) :
    (s.set m l).get m = l := by
  cases m <;> rfl

/-- Inverting a successful `add_score`: the result components. -/
theorem add_score_eq (mode : Mode) (score : Int) (time_elapsed : Rat)
    (shots : Option Int) (date : String) (store s' : Store) (r : Option Nat)
    (h : add_score mode score time_elapsed shots date store = some (s', r)) :
    s' = store.set mode
        (((store.get mode ++ [mkEntry mode score time_elapsed shots date]).mergeSort
          (keyLe mode)).take 5) ∧
    r = ((((store.get mode ++ [mkEntry mode score time_elapsed shots date]).mergeSort
          (keyLe mode)).take 5).findIdx?
        (entryMatches score time_elapsed date)).map (· + 1) := by
  simp only [add_score] at h
  split at h
  · exact absurd h (by simp)
  · rw [Option.some_inj] at h
    exact ⟨(congrArg Prod.fst h).symm, (congrArg Prod.snd h).symm⟩

/-- C5: every successful `add_score` call leaves the stored list for the
mode equal to the previous list plus the new entry, stably sorted
(`List.mergeSort` is a stable sort) by the mode-specific comparator and
truncated to at most 5 entries; the resulting list is sorted and never
exceeds length 5. -/
theorem C5_sorted_truncated_top5 (mode : Mode) (score : Int)
    (time_elapsed : Rat) (shots : Option Int) (date : String)
    (store s' : Store) (r : Option Nat)
    (h : add_score mode score time_elapsed shots date store = some (s', r)) :
    s'.get mode =
      ((store.get mode ++ [mkEntry mode score time_elapsed shots date]).mergeSort
        (keyLe mode)).take 5 ∧
    (s'.get mode).length ≤ 5 ∧
    (s'.get mode).Pairwise (fun a b => keyLe mode a b = true) ∧
    ∃ l, List.Perm l (store.get mode ++ [mkEntry mode score time_elapsed shots date]) ∧
      l.Pairwise (fun a b => keyLe mode a b = true) ∧ s'.get mode = l.take 5 := by
  obtain ⟨h1, -⟩ := add_score_eq mode score time_elapsed shots date store s' r h
  have hget : s'.get mode =
      ((store.get mode ++ [mkEntry mode score time_elapsed shots date]).mergeSort
        (keyLe mode)).take 5 := by
    rw [h1, Store.get_set_self]
  have hsorted :
      ((store.get mode ++ [mkEntry mode score time_elapsed shots date]).mergeSort
        (keyLe mode)).Pairwise (fun a b => keyLe mode a b = true) :=
    List.sorted_mergeSort (keyLe_trans mode) (keyLe_total mode) _
  refine ⟨hget, ?_, ?_, ?_⟩
  · rw [hget, List.length_take]
    exact Nat.min_le_left _ _
  · rw [hget]
    exact List.Pairwise.sublist (List.take_sublist _ _) hsorted
  · exact ⟨_, List.mergeSort_perm _ _, hsorted, hget⟩

/-- Witness for C5: a concrete insertion into an empty original-mode
store. -/
theorem C5_witness :
    Store.get ⟨[⟨300, 40, "d", none⟩], [], [], []⟩ Mode.original =
      ((Store.get emptyStore Mode.original ++
        [mkEntry Mode.original 300 40 none "d"]).mergeSort
          (keyLe Mode.original)).take 5 ∧
    (Store.get ⟨[⟨300, 40, "d", none⟩], [], [], []⟩ Mode.original).length ≤ 5 ∧
    (Store.get ⟨[⟨300, 40, "d", none⟩], [], [], []⟩ Mode.original).Pairwise
      (fun a b => keyLe Mode.original a b = true) ∧
    ∃ l, List.Perm l (Store.get emptyStore Mode.original ++
        [mkEntry Mode.original 300 40 none "d"]) ∧
      l.Pairwise (fun a b => keyLe Mode.original a b = true) ∧
      Store.get ⟨[⟨300, 40, "d", none⟩], [], [], []⟩ Mode.original = l.take 5 :=
  C5_sorted_truncated_top5 Mode.original 300 40 none "d" emptyStore
    ⟨[⟨300, 40, "d", none⟩], [], [], []⟩ (some 1) (by
      simp only [add_score]
      rw [if_neg (by decide)]
      rw [List.mergeSort_of_sorted (by decide)]
      rfl)

theorem findIdx_congr {α : Type} {p q : α → Bool} :
    ∀ (l : List α) (i : Nat), (∀ e ∈ l, p e = q e) →
      l.findIdx? p i = l.findIdx? q i
  | [], _, _ => rfl
  | a :: l, i, h => by
    rw [List.findIdx?_cons, List.findIdx?_cons, h a (List.mem_cons_self a l)]
    split
    · rfl
    · exact findIdx_congr l (i + 1) fun e he => h e (List.mem_cons_of_mem a he)

theorem entryMatches_mkEntry (mode : Mode) (score : Int) (time_elapsed : Rat)
    (shots : Option Int) (date : String) :
    entryMatches score time_elapsed date
      (mkEntry mode score time_elapsed shots date) = true := by
  simp [entryMatches, mkEntry]

/-- C6 (amended): a successful `add_score` returns the 1-based index of
the first entry of the persisted list matching the new entry's (score,
time, date), or `none` when no entry matches; when no previously stored
entry shares the new entry's (score, time, date), this is exactly the
position of the just-inserted entry, and the return value is `some` if
and only if the inserted entry survived truncation. -/
theorem C6_rank_reporting (mode : Mode) (score : Int) (time_elapsed : Rat)
    (shots : Option Int) (date : String) (store s' : Store) (r : Option Nat)
    (h : add_score mode score time_elapsed shots date store = some (s', r)) :
    r = ((s'.get mode).findIdx? (entryMatches score time_elapsed date)).map (· + 1) ∧
    ((∀ e ∈ store.get mode, entryMatches score time_elapsed date e = false) →
      r = ((s'.get mode).findIdx?
            (fun e => decide (e = mkEntry mode score time_elapsed shots date))).map
            (· + 1) ∧
      (r.isSome = true ↔
        mkEntry mode score time_elapsed shots date ∈ s'.get mode)) := by
  obtain ⟨h1, h2⟩ := add_score_eq mode score time_elapsed shots date store s' r h
  have hget : s'.get mode =
      ((store.get mode ++ [mkEntry mode score time_elapsed shots date]).mergeSort
        (keyLe mode)).take 5 := by
    rw [h1, Store.get_set_self]
  have hr0 : r = ((s'.get mode).findIdx?
      (entryMatches score time_elapsed date)).map (· + 1) := by
    rw [hget]; exact h2
  refine ⟨hr0, fun hdup => ?_⟩
  have hmatchnew := entryMatches_mkEntry mode score time_elapsed shots date
  have hcong : ∀ e ∈ s'.get mode,
      entryMatches score time_elapsed date e =
        decide (e = mkEntry mode score time_elapsed shots date) := by
    intro e he
    have hel : e ∈ store.get mode ++ [mkEntry mode score time_elapsed shots date] := by
      rw [hget] at he
      exact List.mem_mergeSort.mp (List.take_subset _ _ he)
    rcases List.mem_append.mp hel with h' | h'
    · have hf := hdup e h'
      have hne : e ≠ mkEntry mode score time_elapsed shots date := by
        intro hen
        rw [hen, hmatchnew] at hf
        exact Bool.noConfusion hf
      rw [hf, decide_eq_false hne]
    · have hee : e = mkEntry mode score time_elapsed shots date := by
        simpa using h'
      rw [hee, hmatchnew, decide_eq_true rfl]
  have hr : r = ((s'.get mode).findIdx?
      (fun e => decide (e = mkEntry mode score time_elapsed shots date))).map
      (· + 1) := by
    rw [hr0, findIdx_congr (s'.get mode) 0 hcong]
  refine ⟨hr, ?_⟩
  rw [hr]
  simp only [Option.isSome_map', List.findIdx?_isSome, List.any_eq_true,
    decide_eq_true_eq]
  constructor
  · rintro ⟨x, hx, rfl⟩
    exact hx
  · intro hm
    exact ⟨_, hm, rfl⟩

/-- Witness for C6: inserting into an empty original store yields rank 1,
the position of the inserted entry. -/
theorem C6_witness :
    (some 1 : Option Nat) =
      ((Store.get ⟨[⟨7, 3, "w", none⟩], [], [], []⟩ Mode.original).findIdx?
        (fun e => decide (e = mkEntry Mode.original 7 3 none "w"))).map (· + 1) ∧
    ((some 1 : Option Nat).isSome = true ↔
      mkEntry Mode.original 7 3 none "w" ∈
        Store.get ⟨[⟨7, 3, "w", none⟩], [], [], []⟩ Mode.original) :=
  (C6_rank_reporting Mode.original 7 3 none "w" emptyStore
    ⟨[⟨7, 3, "w", none⟩], [], [], []⟩ (some 1) (by
      simp only [add_score]
      rw [if_neg (by decide)]
      rw [List.mergeSort_of_sorted (by decide)]
      rfl)).2
    (fun e he => absurd he (List.not_mem_nil e))

/-- C6 counterexample: in one-in-chamber, inserting an entry whose
(score, time, date) coincide with a stored entry of better sort key can
report a rank even though the inserted entry itself was truncated away.
Here the new entry (score 0, 0 shots) sorts sixth and is dropped, yet
`add_score` returns rank 5 — the stored duplicate's position — where the
claim requires "not ranked". -/
theorem C6_counterexample :
    add_score Mode.one_in_chamber 0 10 (some 0) "d" dupStore =
      some (dupStore, some 5) ∧
    mkEntry Mode.one_in_chamber 0 10 (some 0) "d" ∉ dupStore.one_in_chamber := by
  constructor
  · simp only [add_score]
    rw [if_neg (by decide)]
    rw [List.mergeSort_of_sorted (by decide)]
    rfl
  · decide

/-- C1 (amended): while evasion mode is active with recorded start `t0`,
reaching 300 s since `t0` ends the session via a master_of_evasion game
over with score 0 and reported time equal to the actual evasion elapsed
time at that tick (at least 300 s, not exactly 300.0); a player hit
while evasion is active does the same with the current evasion elapsed
time; and recording a master_of_evasion outcome changes only the
master_of_evasion leaderboard slot. -/
theorem C1_evasion_end (now start_ms t0 : Nat) (score : Int) (sr : Option Int)
    (hit : Bool) (s : EvState) (hact : s.activated = true)
    (hstart : s.start = some t0) :
    (300000 ≤ now - t0 →
      sessionEndCheck Mode.one_in_chamber now start_ms score sr hit s =
        some ⟨Mode.master_of_evasion, 0, msToSec (now - t0), none, false⟩) ∧
    (now - t0 < 300000 → hit = true →
      sessionEndCheck Mode.one_in_chamber now start_ms score sr hit s =
        some ⟨Mode.master_of_evasion, 0, msToSec (now - t0), none, false⟩) ∧
    (∀ (tq : Rat) (d : String) (st s' : Store) (rk : Option Nat),
      add_score Mode.master_of_evasion 0 tq none d st = some (s', rk) →
        s'.master_of_evasion =
          ((st.master_of_evasion ++
            [mkEntry Mode.master_of_evasion 0 tq none d]).mergeSort
              (keyLe Mode.master_of_evasion)).take 5 ∧
        s'.original = st.original ∧ s'.time_attack = st.time_attack ∧
        s'.one_in_chamber = st.one_in_chamber) := by
  refine ⟨?_, ?_, ?_⟩
  · intro h
    simp [sessionEndCheck, hact, hstart, h]
  · intro h hh
    simp [sessionEndCheck, hact, hstart, hh, Nat.not_le.mpr h]
  · intro tq d st s' rk h
    obtain ⟨h1, -⟩ := add_score_eq Mode.master_of_evasion 0 tq none d st s' rk h
    rw [h1]
    exact ⟨rfl, rfl, rfl, rfl⟩

/-- Witness for C1: the timeout branch at a concrete tick. -/
theorem C1_witness :
    sessionEndCheck Mode.one_in_chamber 300000 0 0 none false ⟨true, some 0, none⟩ =
      some ⟨Mode.master_of_evasion, 0, msToSec (300000 - 0), none, false⟩ :=
  (C1_evasion_end 300000 0 0 0 none false ⟨true, some 0, none⟩ rfl rfl).1
    (by decide)

/-- C1 counterexample: at the first tick past the 300 s mark the code
reports the actual evasion elapsed time — here 300.016 s — not exactly
300.0 as the claim demands for the timeout case. -/
theorem C1_counterexample :
    sessionEndCheck Mode.one_in_chamber 300016 0 0 none false ⟨true, some 0, none⟩ =
      some ⟨Mode.master_of_evasion, 0, msToSec 300016, none, false⟩ ∧
    msToSec 300016 ≠ (300 : Rat) := by
  constructor
  · rfl
  · intro h
    have : (300016 : Rat) / 1000 = 300 := h
    norm_num at this

/-- C2 (amended): a time-attack session whose elapsed time reaches the
300 s limit ends via the time-attack game over, reporting the actual
elapsed time of that tick (at least 300, not exactly 300) with the
evasion-banner flag set exactly when the score is 0; the mode argument
stays `time_attack`, so the result is recorded under the time_attack
slot rather than as a master_of_evasion entry. -/
theorem C2_time_attack_end (now start_ms : Nat) (score : Int)
    (sr : Option Int) (hit : Bool) (h : 300000 ≤ now - start_ms) :
    sessionEndCheck Mode.time_attack now start_ms score sr hit EvState.init =
      some ⟨Mode.time_attack, score, msToSec (now - start_ms), none,
        decide (score = 0)⟩ := by
  simp [sessionEndCheck, EvState.init, h]

/-- Witness for C2 at a concrete tick and score. -/
theorem C2_witness :
    sessionEndCheck Mode.time_attack 300123 0 5 none false EvState.init =
      some ⟨Mode.time_attack, 5, msToSec (300123 - 0), none,
        decide ((5 : Int) = 0)⟩ :=
  C2_time_attack_end 300123 0 5 none false (by decide)

/-- C2 counterexample: at elapsed 300.016 s with score 0 the game-over
call reports mode `time_attack` and the actual elapsed time, not an
EvasionSurvived result with time exactly 300. -/
theorem C2_counterexample :
    sessionEndCheck Mode.time_attack 300016 0 0 none false EvState.init =
      some ⟨Mode.time_attack, 0, msToSec 300016, none, true⟩ ∧
    msToSec 300016 ≠ (300 : Rat) ∧
    Mode.time_attack ≠ Mode.master_of_evasion := by
  refine ⟨rfl, ?_, by decide⟩
  intro h
  have : (300016 : Rat) / 1000 = 300 := h
  norm_num at this

theorem evasionCheck_of_activated (mode : Mode) (now : Nat) (sr sc : Int)
    (s : EvState) (h : s.activated = true) :
    evasionCheck mode now sr sc s = s := by
  simp [evasionCheck, h]

theorem evasionRun_of_activated (mode : Mode) :
    ∀ (ticks : List (Nat × Int × Int)) (s : EvState), s.activated = true →
      evasionRun mode s ticks = s
  | [], _, _ => rfl
  | (n, a, b) :: rest, s, h => by
    show evasionRun mode (evasionCheck mode n a b s) rest = s
    rw [evasionCheck_of_activated mode n a b s h]
    exact evasionRun_of_activated mode rest s h

theorem evasionRun_activates (t0 : Nat) :
    ∀ (ticks : List (Nat × Int × Int)) (s : EvState),
      s.activated = false → s.zeroTime = some t0 →
      (∀ tk ∈ ticks, tk.2.1 = 0 ∧ tk.2.2 = 0) →
      (∃ tk ∈ ticks, 5000 ≤ tk.1 - t0) →
      (evasionRun Mode.one_in_chamber s ticks).activated = true
  | [], _, _, _, _, hex => absurd hex (by simp)
  | (n, a, b) :: rest, s, hact, hzt, hall, hex => by
    show (evasionRun Mode.one_in_chamber
      (evasionCheck Mode.one_in_chamber n a b s) rest).activated = true
    have ha : a = 0 := (hall (n, a, b) (List.mem_cons_self _ _)).1
    have hb : b = 0 := (hall (n, a, b) (List.mem_cons_self _ _)).2
    by_cases h5 : 5000 ≤ n - t0
    · have hstep : evasionCheck Mode.one_in_chamber n a b s =
          { s with activated := true, start := some n } := by
        simp [evasionCheck, hact, ha, hb, hzt, h5]
      rw [hstep, evasionRun_of_activated Mode.one_in_chamber rest _ rfl]
    · have hstep : evasionCheck Mode.one_in_chamber n a b s = s := by
        simp [evasionCheck, hact, ha, hb, hzt, h5]
      rw [hstep]
      rcases hex with ⟨tk, htk, h5'⟩
      rcases List.mem_cons.mp htk with rfl | htk'
      · exact absurd h5' h5
      · exact evasionRun_activates t0 rest s hact hzt
          (fun tk2 htk2 => hall tk2 (List.mem_cons_of_mem _ htk2)) ⟨tk, htk', h5'⟩

/-- C3: properties of the one-in-chamber evasion trigger. In order:
(1) once active, a whole run of further ticks never reverts it;
(2) a tick with positive ammunition or score resets the continuous-zero
timer to unstarted; (3) activation can only happen on a tick where both
are zero and a recorded timer start lies at least 5000 ms in the past,
and the activation instant is recorded as `evasionStartTime`; (4) a
zero-zero tick at least 5000 ms after the timer start activates, records
the start, and keeps the flag; (5) a zero-zero tick with no running
timer only starts the timer; (6) over any nonempty all-zero tick
sequence starting with no running timer, containing a tick at least
5000 ms after the first, the flag becomes active. -/
theorem C3_evasion_trigger (now t0 : Nat) (sr sc : Int) (s : EvState)
    (ticks : List (Nat × Int × Int)) :
    (s.activated = true →
      (evasionRun Mode.one_in_chamber s ticks).activated = true) ∧
    (s.activated = false → (0 < sr ∨ 0 < sc) →
      evasionCheck Mode.one_in_chamber now sr sc s = { s with zeroTime := none }) ∧
    (s.activated = false →
      (evasionCheck Mode.one_in_chamber now sr sc s).activated = true →
      sr = 0 ∧ sc = 0 ∧ ∃ u, s.zeroTime = some u ∧ 5000 ≤ now - u ∧
        (evasionCheck Mode.one_in_chamber now sr sc s).start = some now) ∧
    (s.activated = false → sr = 0 → sc = 0 → s.zeroTime = some t0 →
      5000 ≤ now - t0 →
      evasionCheck Mode.one_in_chamber now sr sc s =
        { s with activated := true, start := some now }) ∧
    (s.activated = false → sr = 0 → sc = 0 → s.zeroTime = none →
      evasionCheck Mode.one_in_chamber now sr sc s =
        { s with zeroTime := some now }) ∧
    (s.activated = false → s.zeroTime = none → sr = 0 → sc = 0 →
      (∀ tk ∈ ticks, tk.2.1 = 0 ∧ tk.2.2 = 0) →
      (∃ tk ∈ ticks, 5000 ≤ tk.1 - now) →
      (evasionRun Mode.one_in_chamber s ((now, sr, sc) :: ticks)).activated = true) := by
  refine ⟨?_, ?_, ?_, ?_, ?_, ?_⟩
  · intro h
    rw [evasionRun_of_activated Mode.one_in_chamber ticks s h]
    exact h
  · intro hact hpos
    have hne : ¬(sr = 0 ∧ sc = 0) := by
      rintro ⟨rfl, rfl⟩
      rcases hpos with h | h <;> omega
    simp [evasionCheck, hact, hne]
  · intro hact h
    by_cases hz : sr = 0 ∧ sc = 0
    · rcases hzt : s.zeroTime with - | u
      · rw [evasionCheck] at h
        simp [hact, hz, hzt] at h
      · by_cases h5 : 5000 ≤ now - u
        · exact ⟨hz.1, hz.2, u, rfl, h5, by
            simp [evasionCheck, hact, hz.1, hz.2, hzt, h5]⟩
        · rw [evasionCheck] at h
          simp [hact, hz, hzt, h5] at h
    · rw [evasionCheck] at h
      simp [hact, hz] at h
  · intro hact h1 h2 hzt h5
    simp [evasionCheck, hact, h1, h2, hzt, h5]
  · intro hact h1 h2 hzt
    simp [evasionCheck, hact, h1, h2, hzt]
  · intro hact hzt h1 h2 hall hex
    show (evasionRun Mode.one_in_chamber
      (evasionCheck Mode.one_in_chamber now sr sc s) ticks).activated = true
    have hstep : evasionCheck Mode.one_in_chamber now sr sc s =
        { s with zeroTime := some now } := by
      simp [evasionCheck, hact, h1, h2, hzt]
    rw [hstep]
    exact evasionRun_activates now ticks _ hact rfl hall hex

/-- Witness for C3: a concrete activation tick 5500 ms after the timer
start. -/
theorem C3_witness :
    evasionCheck Mode.one_in_chamber 6000 0 0 ⟨false, none, some 500⟩ =
      { (⟨false, none, some 500⟩ : EvState) with
          activated := true, start := some 6000 } :=
  (C3_evasion_trigger 6000 500 0 0 ⟨false, none, some 500⟩ []).2.2.2.1
    rfl rfl rfl rfl (by decide)

theorem find_skip (c : Nat → Bool) :
    ∀ (pre rest : List Nat), (∀ x ∈ pre, c x = false) →
      (pre ++ rest).find? c = rest.find? c
  | [], _, _ => rfl
  | x :: pre, rest, h => by
    rw [List.cons_append,
      List.find?_cons_of_neg _ (by simp [h x (List.mem_cons_self x pre)])]
    exact find_skip c pre rest fun y hy => h y (List.mem_cons_of_mem _ hy)

theorem eraseP_skip (c : Nat → Bool) :
    ∀ (pre rest : List Nat), (∀ x ∈ pre, c x = false) →
      (pre ++ rest).eraseP c = pre ++ rest.eraseP c
  | [], _, _ => rfl
  | x :: pre, rest, h => by
    rw [List.cons_append,
      List.eraseP_cons_of_neg (by simp [h x (List.mem_cons_self x pre)]),
      eraseP_skip c pre rest fun y hy => h y (List.mem_cons_of_mem _ hy),
      List.cons_append]

/-- C4: points for a destroyed asteroid are fixed by its radius tier
(100 / 200 / 300 for Large / Medium / Small), with one-in-chamber
ammunition replenished by +1 / +2 / +3 at the same tier test (and no
replenishment in other modes); the collision pass honours only the first
colliding shot against a given asteroid — one award, one shot consumed,
later colliding shots untouched — and awards nothing when no shot
collides. -/
theorem C4_tier_scoring (mode : Mode) (base rad : Rat) (c : Ast → Nat → Bool)
    (a : Ast) (pre post : List Nat) (sh : Nat) (score rem : Int) :
    (3 * base ≤ rad → tierPoints base rad = 100 ∧ tierAmmo base rad = 1) ∧
    (2 * base ≤ rad → rad < 3 * base →
      tierPoints base rad = 200 ∧ tierAmmo base rad = 2) ∧
    (0 ≤ base → rad < 2 * base →
      tierPoints base rad = 300 ∧ tierAmmo base rad = 3) ∧
    ((∀ x ∈ pre, c a x = false) → c a sh = true →
      shotPass mode base c [a] (pre ++ sh :: post) score rem =
        (score + tierPoints base a.radius,
         rem + (if mode = Mode.one_in_chamber then tierAmmo base a.radius else 0),
         pre ++ post)) ∧
    ((∀ x ∈ pre, c a x = false) →
      shotPass mode base c [a] pre score rem = (score, rem, pre)) := by
  refine ⟨?_, ?_, ?_, ?_, ?_⟩
  · intro h
    constructor <;> simp [tierPoints, tierAmmo, h]
  · intro h2 h3
    constructor <;>
      simp [tierPoints, tierAmmo, not_le.mpr h3, h2]
  · intro hb h2
    have h3 : ¬ 3 * base ≤ rad := by
      intro hc
      nlinarith
    constructor <;> simp [tierPoints, tierAmmo, h3, not_le.mpr h2]
  · intro hpre hsh
    have hf : (pre ++ sh :: post).find? (c a) = some sh := by
      rw [find_skip (c a) pre (sh :: post) hpre]
      exact List.find?_cons_of_pos _ hsh
    have he : (pre ++ sh :: post).eraseP (c a) = pre ++ post := by
      rw [eraseP_skip (c a) pre (sh :: post) hpre, List.eraseP_cons_of_pos hsh]
    simp only [shotPass, hf, he]
  · intro hpre
    have hf : pre.find? (c a) = none := by
      rw [List.find?_eq_none]
      intro x hx
      simp [hpre x hx]
    simp only [shotPass, hf]

/-- Witness for C4: a Large asteroid (radius 60 = 3 × 20), a shot list
whose first collider sits between non-colliding shots, one-in-chamber
mode. -/
theorem C4_witness :
    shotPass Mode.one_in_chamber 20 (fun _ n => decide (n = 7))
      [⟨0, 60⟩] ([1] ++ 7 :: [7]) 0 0 =
      (0 + tierPoints 20 (Ast.mk 0 60).radius,
       0 + (if Mode.one_in_chamber = Mode.one_in_chamber
            then tierAmmo 20 (Ast.mk 0 60).radius else 0),
       [1] ++ [7]) :=
  (C4_tier_scoring Mode.one_in_chamber 20 60 (fun _ n => decide (n = 7))
    ⟨0, 60⟩ [1] [7] 7 0 0).2.2.2.1 (by decide) (by decide)

/-- C7 (amended): only an absent file is treated as the empty per-mode
structure; a malformed or unreadable leaderboard file makes the load
raise — there is no handler, so the session fails instead of recovering —
and a failing leaderboard write likewise propagates out of the recording
path, so no rank and no session result are reported at all. -/
theorem C7_persistence_errors (mode : Mode) (score : Int) (tq : Rat)
    (sh : Option Int) (d : String) (file : Option FileContent) :
    load_high_scores none = Except.ok (emptyStore, none) ∧
    load_high_scores (some FileContent.malformed) = Except.error () ∧
    add_score_persist false mode score tq sh d file = Except.error () := by
  refine ⟨rfl, rfl, ?_⟩
  rcases file with - | fc
  · rcases h : add_score mode score tq sh d emptyStore with - | ⟨s', r⟩ <;>
      simp [add_score_persist, load_high_scores, h]
  · rcases fc with - | l | ⟨o, t2, c2, m2⟩
    · rfl
    · rcases h : add_score mode score tq sh d ⟨l, [], [], []⟩ with - | ⟨s', r⟩ <;>
        simp [add_score_persist, load_high_scores, h]
    · rcases h : add_score mode score tq sh d
          ⟨o.getD [], t2.getD [], c2.getD [], m2.getD []⟩ with - | ⟨s', r⟩ <;>
        simp [add_score_persist, load_high_scores, h]

/-- C7 counterexample: a malformed file does not load as the empty
structure — the load errors out — and a failed write aborts the whole
recording call instead of reporting "not ranked". -/
theorem C7_counterexample :
    load_high_scores (some FileContent.malformed) = Except.error () ∧
    load_high_scores (some FileContent.malformed) ≠
      Except.ok (emptyStore, none) ∧
    add_score_persist false Mode.original 0 0 none "d" none =
      Except.error () := by
  refine ⟨rfl, ?_, ?_⟩
  · intro h
    exact Except.noConfusion h
  · rcases h : add_score Mode.original 0 0 none "d" emptyStore with - | ⟨s', r⟩ <;>
      simp [add_score_persist, load_high_scores, h]

/-- C8: `load_high_scores` tolerates exactly the three input shapes —
absent file → empty structure with no write; legacy flat list → entries
under original, other modes empty, file immediately rewritten in the
structured form; per-mode structure → present keys preserved unchanged
and missing keys backfilled as empty lists, with no write. -/
theorem C8_load_shapes (l : List Entry) (o t c m : Option (List Entry))
    (lo lt lc lm : List Entry) :
    load_high_scores none = Except.ok (emptyStore, none) ∧
    load_high_scores (some (FileContent.flat l)) =
      Except.ok (⟨l, [], [], []⟩, some ⟨l, [], [], []⟩) ∧
    load_high_scores (some (FileContent.dict o t c m)) =
      Except.ok (⟨o.getD [], t.getD [], c.getD [], m.getD []⟩, none) ∧
    load_high_scores (some (FileContent.dict none none none none)) =
      Except.ok (emptyStore, none) ∧
    load_high_scores
        (some (FileContent.dict (some lo) (some lt) (some lc) (some lm))) =
      Except.ok (⟨lo, lt, lc, lm⟩, none) :=
  ⟨rfl, rfl, rfl, rfl, rfl⟩

/-- C9: one-in-chamber ammunition gating — firing with zero ammunition is
a no-op (no shot, no decrement), ammunition never goes negative, a fire
input with positive ammunition creates the shot and decrements by one,
and nothing happens unless all firing conditions hold. -/
theorem C9_ammo_gating (p cs : Bool) (n : Int) :
    fireStep p cs 0 = (0, false) ∧
    (0 ≤ n → 0 ≤ (fireStep p cs n).1) ∧
    (p = true → cs = true → 0 < n → fireStep p cs n = (n - 1, true)) ∧
    (p = false ∨ cs = false ∨ n ≤ 0 → fireStep p cs n = (n, false)) := by
  refine ⟨?_, ?_, ?_, ?_⟩
  · simp [fireStep]
  · intro hn
    by_cases h : p = true ∧ cs = true ∧ 0 < n
    · rw [fireStep, if_pos h]
      dsimp only
      omega
    · rw [fireStep, if_neg h]
      exact hn
  · intro h1 h2 h3
    rw [fireStep, if_pos ⟨h1, h2, h3⟩]
  · intro h
    have hnc : ¬(p = true ∧ cs = true ∧ 0 < n) := by
      rintro ⟨hp, hcs, hpos⟩
      rcases h with h | h | h
      · rw [hp] at h
        exact Bool.noConfusion h
      · rw [hcs] at h
        exact Bool.noConfusion h
      · omega
    rw [fireStep, if_neg hnc]

/-- Witness for C9: firing with one round loaded. -/
theorem C9_witness : fireStep true true 1 = (0, true) :=
  (C9_ammo_gating true true 1).2.2.1 rfl rfl (by decide)

/-- C10: the one-in-chamber comparator reads `shots_remaining` of every
entry, so calling `add_score` for that mode with the default
`shots_remaining = None` fails during the sort-key computation; under
the precondition that every stored entry carries a numeric
shots_remaining and a numeric argument is supplied, the call succeeds
and every persisted one-in-chamber entry carries a numeric
shots_remaining. -/
theorem C10_oic_requires_shots (store : Store) (score : Int) (tq : Rat)
    (d : String) (n : Int) :
    add_score Mode.one_in_chamber score tq none d store = none ∧
    ((∀ e ∈ store.one_in_chamber, e.shots_remaining.isSome = true) →
      ∃ s' r, add_score Mode.one_in_chamber score tq (some n) d store =
          some (s', r) ∧
        ∀ e ∈ s'.one_in_chamber, e.shots_remaining.isSome = true) := by
  constructor
  · simp [add_score, oicShotsOk, mkEntry]
  · intro hpre
    have hok : oicShotsOk (store.get Mode.one_in_chamber ++
        [mkEntry Mode.one_in_chamber score tq (some n) d]) = true := by
      simp only [oicShotsOk, List.all_append, List.all_cons, List.all_nil,
        Bool.and_true, mkEntry, if_pos rfl, Option.isSome_some, Bool.and_eq_true,
        List.all_eq_true]
      exact ⟨fun e he => hpre e he, rfl⟩
    refine ⟨store.set Mode.one_in_chamber
        (((store.get Mode.one_in_chamber ++
          [mkEntry Mode.one_in_chamber score tq (some n) d]).mergeSort
            (keyLe Mode.one_in_chamber)).take 5),
      ((((store.get Mode.one_in_chamber ++
          [mkEntry Mode.one_in_chamber score tq (some n) d]).mergeSort
            (keyLe Mode.one_in_chamber)).take 5).findIdx?
          (entryMatches score tq d)).map (· + 1), ?_, ?_⟩
    · simp only [add_score]
      rw [if_neg (by simp [hok])]
    · intro e he
      have hel : e ∈ store.get Mode.one_in_chamber ++
          [mkEntry Mode.one_in_chamber score tq (some n) d] :=
        List.mem_mergeSort.mp (List.take_subset _ _ he)
      rcases List.mem_append.mp hel with h' | h'
      · exact hpre e h'
      · have : e = mkEntry Mode.one_in_chamber score tq (some n) d := by
          simpa using h'
        rw [this]
        rfl

/-- Witness for C10: a successful one-in-chamber insertion into the empty
store. -/
theorem C10_witness :
    ∃ s' r, add_score Mode.one_in_chamber 5 7 (some 2) "d" emptyStore =
        some (s', r) ∧
      ∀ e ∈ s'.one_in_chamber, e.shots_remaining.isSome = true :=
  (C10_oic_requires_shots emptyStore 5 7 "d" 2).2
    (fun e he => absurd he (List.not_mem_nil e))

end Asteroids
